import Mathlib

/-!
# instrumetrics: entry/exit checkpoints and directive comments

A shallow embedding of `main.go`: the visitor `File.Visit` with its helper
`File.newCheckpoint`, the comment filter `trimComments`, the traversal
`ast.Walk` of the Go standard library that drives the visitor, and the run of
`main` with `File.print`.

Go strings are Lean `String`s, `token.Pos` and line/column numbers are natural
numbers, Go slices are lists (a nil slice is the empty list), a nil pointer is
`none`, and a run-time panic is an `Except.error`.

The syntax tree is the part of `go/ast` that the parser can build from files made of
function declarations and constant or variable declarations, with call, binary and
function-literal expressions and expression, assignment, return, block, `if` and
declaration statements. Positions, types, parameter lists and documentation fields of
the nodes are left out: the visitor reads none of them.
-/

namespace Instrumetrics

/-! ## go/token -/

/-- The type `token.Pos`: a compact source position. -/
abbrev Pos := Nat

/-- The type `token.Position`, the expanded form of a `Pos`. Lines and columns count from 1. -/
structure Position where
  Filename : String
  Offset : Nat
  Line : Nat
  Column : Nat
deriving DecidableEq, Repr

/-- The part of `token.FileSet` the program uses: the method `Position`, which expands
a `Pos`. The line table behind it belongs to the standard library and is a parameter here. -/
structure FileSet where
  Position : Pos → Position

/-- The token kinds of `go/token` that occur in the program and in the examples. -/
inductive Token where
  | INT | STRING | ADD | ASSIGN | DEFINE | VAR | CONST
deriving DecidableEq, Repr

/-! ## go/ast -/

/-- The type `ast.Comment`: the position of its leading slash and its text. -/
structure Comment where
  Slash : Pos
  Text : String
deriving DecidableEq, Repr

/-- The type `ast.CommentGroup`: a sequence of comments with no other tokens between them. -/
structure CommentGroup where
  List : List Comment
deriving DecidableEq, Repr

/-- The type `ast.Object` restricted to what an identifier can point at: the name of the
declared entity. An identifier with `Obj = none` is unresolved. -/
structure Object where
  Name : String
deriving DecidableEq, Repr

mutual
/-- Expressions of `go/ast`: `Ident`, `BasicLit`, `CallExpr`, `BinaryExpr`, `FuncLit`. -/
inductive Expr where
  | ident (Name : String) (Obj : Option Object)
  | basicLit (Kind : Token) (Value : String)
  | callExpr (Fun : Expr) (Args : List Expr)
  | binaryExpr (X : Expr) (Op : Token) (Y : Expr)
  | funcLit (Body : BlockStmt)
/-- Statements of `go/ast`: `ExprStmt`, `AssignStmt`, `ReturnStmt`, `BlockStmt`, `IfStmt`,
`DeclStmt`. The parser puts only a `GenDecl` inside a `DeclStmt` (a function declaration
is not a statement in Go), which is what the type says. -/
inductive Stmt where
  | exprStmt (X : Expr)
  | assignStmt (Lhs : List Expr) (Tok : Token) (Rhs : List Expr)
  | returnStmt (Results : List Expr)
  | blockStmt (Block : BlockStmt)
  | ifStmt (Cond : Expr) (Body : BlockStmt) (Else : Option Stmt)
  | declStmt (Decl : GenDecl)
/-- The type `ast.BlockStmt`: a braced statement list. -/
inductive BlockStmt where
  | mk (List : List Stmt)
/-- The type `ast.ValueSpec`: the declared names (identifiers) and their initial values. -/
inductive ValueSpec where
  | mk (Names : List Expr) (Values : List Expr)
/-- The type `ast.GenDecl` for constants and variables: the keyword and the
specifications. -/
inductive GenDecl where
  | mk (Tok : Token) (Specs : List ValueSpec)
end

/-- The field `List` of a `BlockStmt`. -/
def BlockStmt.List : BlockStmt → List Stmt
  | .mk l => l

/-- The type `ast.FuncDecl`: the name and the body, which is `none` (a nil pointer) for a
function declared without a body, such as one implemented outside Go. -/
structure FuncDecl where
  Name : String
  Body : Option BlockStmt

/-- The interface `ast.Decl` at file level: a function or a general declaration. -/
inductive Decl where
  | funcDecl (n : FuncDecl)
  | genDecl (n : GenDecl)

/-- The type `ast.File`: package name, top-level declarations and all comment groups. -/
structure AstFile where
  Name : String
  Decls : List Decl
  Comments : List CommentGroup

/-- The interface `ast.Node` by dynamic type; `nil` is the nil node that `ast.Walk` passes
to the visitor when it leaves a subtree. -/
inductive Node where
  | nil
  | file (n : AstFile)
  | funcDecl (n : FuncDecl)
  | genDecl (n : GenDecl)
  | valueSpec (n : ValueSpec)
  | stmt (n : Stmt)
  | expr (n : Expr)

/-! ## main.go -/

/-- The struct `Block` of `main.go`. -/
structure Block where
  startByte : Pos
  endByte : Pos
  numStmt : Int

/-- The struct `File` of `main.go`, without the pointer `astFile`: the tree it points to is
passed to and returned by the traversal explicitly. -/
structure File where
  fset : FileSet
  name : String
  blocks : List Block
  atomicPkg : String

/-- A run-time panic of the Go program. -/
inductive Panic where
  | nilDereference
deriving DecidableEq, Repr

/-- The method `File.newCheckpoint`: the statement `kind("kind measuring something...")`. -/
def File.newCheckpoint (_f : File) (kind : String) : Stmt :=
  .exprStmt
    (.callExpr
      (.ident kind none)
      [.basicLit .STRING ("\"" ++ kind ++ " measuring something...\"")])

/-- The method `File.Visit`. It returns the visitor for the children (always `f`) and the
node as the call leaves it: a `*ast.FuncDecl` has its `Body.List` replaced, which panics
when `Body` is nil; every other node is left alone. -/
def File.Visit (f : File) (node : Node) : Except Panic (File × Node) :=
  match node with
  | .funcDecl n =>
    let newList := [f.newCheckpoint "start"]
    match n.Body with
    | none => .error .nilDereference
    | some body =>
      let newList := newList ++ body.List
      .ok (f, .funcDecl { n with Body := some (.mk (newList ++ [f.newCheckpoint "stop"])) })
  | _ => .ok (f, node)

/-- The function `strings.HasPrefix`. -/
def HasPrefix (s pre : String) : Bool :=
  pre.data.isPrefixOf s.data

/-- The function `trimComments`: the loop over the groups and, inside it, the loop over
the comments of a group, each appending to a slice that starts out nil. -/
def trimComments (file : AstFile) (fset : FileSet) : List CommentGroup :=
  file.Comments.foldl
    (fun comments group =>
      let list := group.List.foldl
        (fun list comment =>
          if HasPrefix comment.Text "//go:" && (fset.Position comment.Slash).Column == 1 then
            list ++ [comment]
          else list)
        []
      if list ≠ [] then comments ++ [CommentGroup.mk list] else comments)
    []

/-! ## ast.Walk

`ast.Walk(v, node)` calls `v.Visit(node)`, walks the children of the node with the
visitor that call returned, and calls `Visit(nil)`. The visitor works on the tree in
place; here every walk returns the subtree as the traversal leaves it. The walk of a
function declaration and of a file reads the children from the node that `Visit` hands
back. Expressions, statements and specifications cannot hold a function declaration, and
`File.Visit` hands them back as they were (`Visit_expr`, `Visit_stmt`, `Visit_valueSpec`,
`Visit_genDecl`), so their walks go on with the children they had. -/

mutual
/-- The function `ast.Walk` on an expression. -/
def walkExpr (f : File) : Expr → Except Panic Expr
  | .ident name obj => do
    let (f, _) ← f.Visit (.expr (.ident name obj))
    let _ ← f.Visit .nil
    pure (.ident name obj)
  | .basicLit kind value => do
    let (f, _) ← f.Visit (.expr (.basicLit kind value))
    let _ ← f.Visit .nil
    pure (.basicLit kind value)
  | .callExpr fn args => do
    let (f, _) ← f.Visit (.expr (.callExpr fn args))
    let fn ← walkExpr f fn
    let args ← walkExprList f args
    let _ ← f.Visit .nil
    pure (.callExpr fn args)
  | .binaryExpr x op y => do
    let (f, _) ← f.Visit (.expr (.binaryExpr x op y))
    let x ← walkExpr f x
    let y ← walkExpr f y
    let _ ← f.Visit .nil
    pure (.binaryExpr x op y)
  | .funcLit body => do
    let (f, _) ← f.Visit (.expr (.funcLit body))
    let body ← walkBlockStmt f body
    let _ ← f.Visit .nil
    pure (.funcLit body)
/-- The function `walkList` of `go/ast` on expressions. -/
def walkExprList (f : File) : List Expr → Except Panic (List Expr)
  | [] => pure []
  | x :: xs => do
    let x ← walkExpr f x
    let xs ← walkExprList f xs
    pure (x :: xs)
/-- The function `ast.Walk` on a statement. -/
def walkStmt (f : File) : Stmt → Except Panic Stmt
  | .exprStmt x => do
    let (f, _) ← f.Visit (.stmt (.exprStmt x))
    let x ← walkExpr f x
    let _ ← f.Visit .nil
    pure (.exprStmt x)
  | .assignStmt lhs tok rhs => do
    let (f, _) ← f.Visit (.stmt (.assignStmt lhs tok rhs))
    let lhs ← walkExprList f lhs
    let rhs ← walkExprList f rhs
    let _ ← f.Visit .nil
    pure (.assignStmt lhs tok rhs)
  | .returnStmt results => do
    let (f, _) ← f.Visit (.stmt (.returnStmt results))
    let results ← walkExprList f results
    let _ ← f.Visit .nil
    pure (.returnStmt results)
  | .blockStmt block => do
    let block ← walkBlockStmt f block
    pure (.blockStmt block)
  | .ifStmt cond body els => do
    let (f, _) ← f.Visit (.stmt (.ifStmt cond body els))
    let cond ← walkExpr f cond
    let body ← walkBlockStmt f body
    let els ← match els with
      | none => pure none
      | some s => do
        let s ← walkStmt f s
        pure (some s)
    let _ ← f.Visit .nil
    pure (.ifStmt cond body els)
  | .declStmt decl => do
    let (f, _) ← f.Visit (.stmt (.declStmt decl))
    let decl ← walkGenDecl f decl
    let _ ← f.Visit .nil
    pure (.declStmt decl)
/-- The function `walkList` of `go/ast` on statements. -/
def walkStmtList (f : File) : List Stmt → Except Panic (List Stmt)
  | [] => pure []
  | s :: ss => do
    let s ← walkStmt f s
    let ss ← walkStmtList f ss
    pure (s :: ss)
/-- The function `ast.Walk` on a block statement. -/
def walkBlockStmt (f : File) : BlockStmt → Except Panic BlockStmt
  | .mk list => do
    let (f, _) ← f.Visit (.stmt (.blockStmt (.mk list)))
    let list ← walkStmtList f list
    let _ ← f.Visit .nil
    pure (.mk list)
/-- The function `ast.Walk` on a value specification. -/
def walkValueSpec (f : File) : ValueSpec → Except Panic ValueSpec
  | .mk names values => do
    let (f, _) ← f.Visit (.valueSpec (.mk names values))
    let names ← walkExprList f names
    let values ← walkExprList f values
    let _ ← f.Visit .nil
    pure (.mk names values)
/-- The function `walkList` of `go/ast` on specifications. -/
def walkValueSpecList (f : File) : List ValueSpec → Except Panic (List ValueSpec)
  | [] => pure []
  | s :: ss => do
    let s ← walkValueSpec f s
    let ss ← walkValueSpecList f ss
    pure (s :: ss)
/-- The function `ast.Walk` on a general declaration. -/
def walkGenDecl (f : File) : GenDecl → Except Panic GenDecl
  | .mk tok specs => do
    let (f, _) ← f.Visit (.genDecl (.mk tok specs))
    let specs ← walkValueSpecList f specs
    let _ ← f.Visit .nil
    pure (.mk tok specs)
end

/-- The function `ast.Walk` on a function declaration: the visitor first, then the name
and, when there is one, the body of the declaration as the visitor left it. The visitor
hands back a node of the dynamic type it was given, so the last case does not occur. -/
def walkFuncDecl (f : File) (n : FuncDecl) : Except Panic FuncDecl := do
  match ← f.Visit (.funcDecl n) with
  | (f, .funcDecl n) =>
    let _ ← walkExpr f (.ident n.Name none)
    let body ← match n.Body with
      | none => pure none
      | some body => do
        let body ← walkBlockStmt f body
        pure (some body)
    let _ ← f.Visit .nil
    pure { n with Body := body }
  | (_, _) => pure n

/-- The function `ast.Walk` on a top-level declaration. -/
def walkDecl (f : File) : Decl → Except Panic Decl
  | .funcDecl n => do
    let n ← walkFuncDecl f n
    pure (.funcDecl n)
  | .genDecl n => do
    let n ← walkGenDecl f n
    pure (.genDecl n)

/-- The function `walkList` of `go/ast` on top-level declarations. -/
def walkDeclList (f : File) : List Decl → Except Panic (List Decl)
  | [] => pure []
  | d :: ds => do
    let d ← walkDecl f d
    let ds ← walkDeclList f ds
    pure (d :: ds)

/-- The function `ast.Walk` on a file, which is the call `ast.Walk(file, file.astFile)` of
`main`: the visitor, the package name, the declarations in order. The comments are not
walked. As in `walkFuncDecl`, the last case does not occur. -/
def walkFile (f : File) (n : AstFile) : Except Panic AstFile := do
  match ← f.Visit (.file n) with
  | (f, .file n) =>
    let _ ← walkExpr f (.ident n.Name none)
    let decls ← walkDeclList f n.Decls
    let _ ← f.Visit .nil
    pure { n with Decls := decls }
  | (_, _) => pure n

/-! ## main

The calls of `main` into the standard library whose results depend on the file system,
on the parser and on the printer are parameters; what the process leaves behind is its
exit status and what it wrote to standard output and to standard error. -/

/-- The standard library as `main` uses it: `ioutil.ReadFile` (the content or an error),
`parser.ParseFile` on a new file set with `parser.ParseComments` (the file set and the
tree, or an error), and `printer.Fprint` (the text it wrote and the error it returned,
if any). A Go `error` is the text that `%s` prints for it. -/
structure Env where
  ReadFile : String → Except String String
  ParseFile : String → String → Except String (FileSet × AstFile)
  Fprint : FileSet → AstFile → String × Option String

/-- What a run of the program leaves behind: the exit status, the writes to `os.Stdout`
in order, and the lines written to standard error. -/
structure Outcome where
  status : Nat
  stdout : List String
  stderr : List String
deriving DecidableEq, Repr

/-- The call `log.Fatalf("cover: %s: %s", name, err)`: the message on standard error
(without the time stamp of the logger) and exit status 1. -/
def logFatalf (name err : String) : Outcome :=
  ⟨1, [], ["cover: " ++ name ++ ": " ++ err]⟩

/-- A panic that nothing recovers: the Go run time reports it on standard error and
exits with status 2. -/
def Panic.outcome : Panic → Outcome
  | .nilDereference =>
    ⟨2, [], ["panic: runtime error: invalid memory address or nil pointer dereference"]⟩

/-- The method `File.print`: the call of `printer.Fprint` on the tree, whose error result
is not looked at. It returns what was written to `w`. -/
def File.print (f : File) (astFile : AstFile)
    (Fprint : FileSet → AstFile → String × Option String) : String :=
  (Fprint f.fset astFile).1

/-- The function `main`. -/
def main (env : Env) : Outcome :=
  let name := "run.go_"
  match env.ReadFile name with
  | .error err => logFatalf name err
  | .ok content =>
    match env.ParseFile name content with
    | .error err => logFatalf name err
    | .ok (fset, parsedFile) =>
      let parsedFile := { parsedFile with Comments := trimComments parsedFile fset }
      let file : File := { fset := fset, name := name, blocks := [], atomicPkg := "" }
      match walkFile file parsedFile with
      | .error p => p.outcome
      | .ok astFile => ⟨0, [file.print astFile env.Fprint], []⟩

/-! ## Observations on trees and comments -/

/-- The test of `trimComments` on one comment: the text starts with `//go:` and the
slash stands in column 1. -/
def isDirective (fset : FileSet) (comment : Comment) : Bool :=
  HasPrefix comment.Text "//go:" && (fset.Position comment.Slash).Column == 1

/-- All comments of a list of groups, in order. -/
def allComments (groups : List CommentGroup) : List Comment :=
  (groups.map CommentGroup.List).flatten

/-- Recognises the statement that `newCheckpoint kind` builds. -/
def isCheckpoint (kind : String) : Stmt → Bool
  | .exprStmt (.callExpr (.ident name none) [.basicLit .STRING value]) =>
    name == kind && value == "\"" ++ kind ++ " measuring something...\""
  | _ => false

mutual
/-- Number of `kind` checkpoint statements inside an expression (in function literals). -/
def countExpr (kind : String) : Expr → Nat
  | .ident _ _ => 0
  | .basicLit _ _ => 0
  | .callExpr fn args => countExpr kind fn + countExprList kind args
  | .binaryExpr x _ y => countExpr kind x + countExpr kind y
  | .funcLit body => countBlockStmt kind body
/-- Number of `kind` checkpoint statements inside a list of expressions. -/
def countExprList (kind : String) : List Expr → Nat
  | [] => 0
  | x :: xs => countExpr kind x + countExprList kind xs
/-- Number of `kind` checkpoint statements in a statement: the statement itself when it is
one, and those nested in it. -/
def countStmt (kind : String) : Stmt → Nat
  | .exprStmt x => (if isCheckpoint kind (.exprStmt x) then 1 else 0) + countExpr kind x
  | .assignStmt lhs _ rhs => countExprList kind lhs + countExprList kind rhs
  | .returnStmt results => countExprList kind results
  | .blockStmt block => countBlockStmt kind block
  | .ifStmt cond body none => countExpr kind cond + countBlockStmt kind body
  | .ifStmt cond body (some s) => countExpr kind cond + countBlockStmt kind body + countStmt kind s
  | .declStmt decl => countGenDecl kind decl
/-- Number of `kind` checkpoint statements in a statement list. -/
def countStmtList (kind : String) : List Stmt → Nat
  | [] => 0
  | s :: ss => countStmt kind s + countStmtList kind ss
/-- Number of `kind` checkpoint statements in a block. -/
def countBlockStmt (kind : String) : BlockStmt → Nat
  | .mk list => countStmtList kind list
/-- Number of `kind` checkpoint statements in a value specification. -/
def countValueSpec (kind : String) : ValueSpec → Nat
  | .mk names values => countExprList kind names + countExprList kind values
/-- Number of `kind` checkpoint statements in a list of value specifications. -/
def countValueSpecList (kind : String) : List ValueSpec → Nat
  | [] => 0
  | s :: ss => countValueSpec kind s + countValueSpecList kind ss
/-- Number of `kind` checkpoint statements in a general declaration. -/
def countGenDecl (kind : String) : GenDecl → Nat
  | .mk _ specs => countValueSpecList kind specs
end

/-- Number of `kind` checkpoint statements in a top-level declaration. -/
def countDecl (kind : String) : Decl → Nat
  | .funcDecl ⟨_, none⟩ => 0
  | .funcDecl ⟨_, some body⟩ => countBlockStmt kind body
  | .genDecl n => countGenDecl kind n

/-- Number of `kind` checkpoint statements in a file. -/
def countFile (kind : String) (n : AstFile) : Nat :=
  (n.Decls.map (countDecl kind)).sum

/-- A function declaration that has a body (`Body != nil`), empty or not. -/
def Decl.isFuncWithBody : Decl → Bool
  | .funcDecl ⟨_, some _⟩ => true
  | _ => false

/-- A function declaration whose body holds at least one statement. -/
def Decl.isFuncWithStmts : Decl → Bool
  | .funcDecl ⟨_, some (.mk (_ :: _))⟩ => true
  | _ => false

/-- A function declaration without a body (`Body == nil`). -/
def Decl.isFuncWithoutBody : Decl → Bool
  | .funcDecl ⟨_, none⟩ => true
  | _ => false

/-- Every function declaration of the file has a body. -/
def AstFile.allBodies (n : AstFile) : Bool :=
  n.Decls.all (fun d => !d.isFuncWithoutBody)

/-- The declaration as a completed walk leaves it: a function declaration with a body has
the two checkpoints around its statements, any other declaration is as it was. The
lemmas `walkDecl_eq` and `walkFile_eq` relate it to the walk. -/
def Decl.afterWalk (f : File) : Decl → Decl
  | .funcDecl ⟨name, some body⟩ =>
    .funcDecl ⟨name,
      some (.mk ([f.newCheckpoint "start"] ++ body.List ++ [f.newCheckpoint "stop"]))⟩
  | d => d

/-- Number of statements directly in the body of a function declaration. -/
def Decl.numBodyStmts : Decl → Nat
  | .funcDecl ⟨_, some body⟩ => body.List.length
  | _ => 0

/-! ## Example inputs -/

/-- A file set that puts position `p` in line `p / 100 + 1`, column `p % 100 + 1`. -/
def exampleFset : FileSet :=
  ⟨fun p => ⟨"run.go_", p, p / 100 + 1, p % 100 + 1⟩⟩

/-- The visitor state that `main` builds. -/
def exampleVisitor : File :=
  ⟨exampleFset, "run.go_", [], ""⟩

/-- The statement `name()`. -/
def callStmt (name : String) : Stmt :=
  .exprStmt (.callExpr (.ident name none) [])

/-- The file `package main; func F() { a(); b() }`. -/
def fileAB : AstFile :=
  ⟨"main", [.funcDecl ⟨"F", some (.mk [callStmt "a", callStmt "b"])⟩], []⟩

/-- The file `package main; func F() {}`. -/
def fileEmptyBody : AstFile :=
  ⟨"main", [.funcDecl ⟨"F", some (.mk [])⟩], []⟩

/-- The file `package main; func f()`: a function declared without a body. -/
def fileNoBody : AstFile :=
  ⟨"main", [.funcDecl ⟨"f", none⟩], []⟩

/-- The file `package main; func F() { func() { a() }() }`. -/
def fileFuncLit : AstFile :=
  ⟨"main", [.funcDecl ⟨"F", some (.mk
    [.exprStmt (.callExpr (.funcLit (.mk [callStmt "a"])) [])])⟩], []⟩

/-- The file `package main; func F() { start("start measuring something..."); a(); b();
stop("stop measuring something...") }`: what one walk makes of `fileAB`. -/
def fileABOnce : AstFile :=
  ⟨"main", [.funcDecl ⟨"F", some (.mk
    [exampleVisitor.newCheckpoint "start", callStmt "a", callStmt "b",
     exampleVisitor.newCheckpoint "stop"])⟩], []⟩

/-- A world in which `run.go_` holds `package main; func F() { a(); b() }` and standard
output is a full device (`/dev/full`): the printer writes nothing and returns the error
of the write. -/
def envStdoutFull : Env :=
  ⟨fun _ => .ok "package main; func F() \x7b a(); b() \x7d",
   fun _ _ => .ok (exampleFset, fileAB),
   fun _ _ => ("", some "write /dev/stdout: no space left on device")⟩

/-- A world in which `run.go_` holds `package main; func F() {`, with the closing brace
missing: the parser returns an error. -/
def envUnbalanced : Env :=
  ⟨fun _ => .ok "package main; func F() \x7b",
   fun _ _ => .error "run.go_:1:25: expected \x7d, found EOF",
   fun _ _ => ("package main\n", none)⟩

/-! ## The visitor away from function declarations -/

theorem Visit_nil (f : File) : f.Visit .nil = .ok (f, .nil) := rfl

theorem Visit_expr (f : File) (e : Expr) : f.Visit (.expr e) = .ok (f, .expr e) := rfl

theorem Visit_stmt (f : File) (s : Stmt) : f.Visit (.stmt s) = .ok (f, .stmt s) := rfl

theorem Visit_valueSpec (f : File) (s : ValueSpec) :
    f.Visit (.valueSpec s) = .ok (f, .valueSpec s) := rfl

theorem Visit_genDecl (f : File) (d : GenDecl) : f.Visit (.genDecl d) = .ok (f, .genDecl d) := rfl

theorem Visit_file (f : File) (n : AstFile) : f.Visit (.file n) = .ok (f, .file n) := rfl

theorem Visit_funcDecl_some (f : File) (name : String) (body : BlockStmt) :
    f.Visit (.funcDecl ⟨name, some body⟩) =
      .ok (f, .funcDecl ⟨name,
        some (.mk ([f.newCheckpoint "start"] ++ body.List ++ [f.newCheckpoint "stop"]))⟩) := rfl

theorem Visit_funcDecl_none (f : File) (name : String) :
    f.Visit (.funcDecl ⟨name, none⟩) = .error .nilDereference := rfl

/-! ## The walk below declaration level changes nothing -/

mutual
theorem walkExpr_eq (f : File) : ∀ e : Expr, walkExpr f e = .ok e
  | .ident _ _ => rfl
  | .basicLit _ _ => rfl
  | .callExpr fn args => by
    simp [walkExpr, File.Visit, walkExpr_eq f fn, walkExprList_eq f args, bind, Except.bind, pure,
      Except.pure]
  | .binaryExpr x _ y => by
    simp [walkExpr, File.Visit, walkExpr_eq f x, walkExpr_eq f y, bind, Except.bind, pure,
      Except.pure]
  | .funcLit body => by
    simp [walkExpr, File.Visit, walkBlockStmt_eq f body, bind, Except.bind, pure, Except.pure]
theorem walkExprList_eq (f : File) : ∀ l : List Expr, walkExprList f l = .ok l
  | [] => rfl
  | x :: xs => by
    simp [walkExprList, walkExpr_eq f x, walkExprList_eq f xs, bind, Except.bind, pure,
      Except.pure]
theorem walkStmt_eq (f : File) : ∀ s : Stmt, walkStmt f s = .ok s
  | .exprStmt x => by
    simp [walkStmt, File.Visit, walkExpr_eq f x, bind, Except.bind, pure, Except.pure]
  | .assignStmt lhs _ rhs => by
    simp [walkStmt, File.Visit, walkExprList_eq f lhs, walkExprList_eq f rhs, bind, Except.bind,
      pure, Except.pure]
  | .returnStmt results => by
    simp [walkStmt, File.Visit, walkExprList_eq f results, bind, Except.bind, pure, Except.pure]
  | .blockStmt block => by
    simp [walkStmt, walkBlockStmt_eq f block, bind, Except.bind, pure, Except.pure]
  | .ifStmt cond body none => by
    simp [walkStmt, File.Visit, walkExpr_eq f cond, walkBlockStmt_eq f body, bind, Except.bind,
      pure, Except.pure]
  | .ifStmt cond body (some s) => by
    simp [walkStmt, File.Visit, walkExpr_eq f cond, walkBlockStmt_eq f body, walkStmt_eq f s,
      bind, Except.bind, pure, Except.pure]
  | .declStmt decl => by
    simp [walkStmt, File.Visit, walkGenDecl_eq f decl, bind, Except.bind, pure, Except.pure]
theorem walkStmtList_eq (f : File) : ∀ l : List Stmt, walkStmtList f l = .ok l
  | [] => rfl
  | s :: ss => by
    simp [walkStmtList, walkStmt_eq f s, walkStmtList_eq f ss, bind, Except.bind, pure,
      Except.pure]
theorem walkBlockStmt_eq (f : File) : ∀ b : BlockStmt, walkBlockStmt f b = .ok b
  | .mk list => by
    simp [walkBlockStmt, File.Visit, walkStmtList_eq f list, bind, Except.bind, pure,
      Except.pure]
theorem walkValueSpec_eq (f : File) : ∀ s : ValueSpec, walkValueSpec f s = .ok s
  | .mk names values => by
    simp [walkValueSpec, File.Visit, walkExprList_eq f names, walkExprList_eq f values, bind,
      Except.bind, pure, Except.pure]
theorem walkValueSpecList_eq (f : File) : ∀ l : List ValueSpec, walkValueSpecList f l = .ok l
  | [] => rfl
  | s :: ss => by
    simp [walkValueSpecList, walkValueSpec_eq f s, walkValueSpecList_eq f ss, bind, Except.bind,
      pure, Except.pure]
theorem walkGenDecl_eq (f : File) : ∀ d : GenDecl, walkGenDecl f d = .ok d
  | .mk _ specs => by
    simp [walkGenDecl, File.Visit, walkValueSpecList_eq f specs, bind, Except.bind, pure,
      Except.pure]
end

/-! ## trimComments -/

theorem foldl_keep_eq_filter {α : Type} (p : α → Bool) (l acc : List α) :
    l.foldl (fun list c => if p c then list ++ [c] else list) acc = acc ++ l.filter p := by
  induction l generalizing acc with
  | nil => simp
  | cons c cs ih =>
    by_cases h : p c <;> simp [List.foldl_cons, ih, h]

theorem foldl_groups_eq (fset : FileSet) (groups acc : List CommentGroup) :
    groups.foldl
      (fun comments group =>
        let list := group.List.foldl
          (fun list comment =>
            if HasPrefix comment.Text "//go:" && (fset.Position comment.Slash).Column == 1 then
              list ++ [comment]
            else list)
          []
        if list ≠ [] then comments ++ [CommentGroup.mk list] else comments)
      acc
    = acc ++ (groups.map (fun g => CommentGroup.mk (g.List.filter (isDirective fset)))).filter
        (fun g => !g.List.isEmpty) := by
  induction groups generalizing acc with
  | nil => simp
  | cons g gs ih =>
    have hin := foldl_keep_eq_filter (isDirective fset) g.List []
    simp only [isDirective, List.nil_append] at hin
    simp only [List.foldl_cons, List.map_cons, ih, hin]
    by_cases h : g.List.filter (isDirective fset) = []
    · simp only [isDirective] at h
      simp [h, isDirective, List.filter_cons]
    · simp only [isDirective] at h
      simp [h, isDirective, List.filter_cons]

theorem trimComments_eq (file : AstFile) (fset : FileSet) :
    trimComments file fset =
      (file.Comments.map (fun g => CommentGroup.mk (g.List.filter (isDirective fset)))).filter
        (fun g => !g.List.isEmpty) := by
  unfold trimComments
  rw [foldl_groups_eq]
  simp

theorem allComments_filter_groups (p : Comment → Bool) (groups : List CommentGroup) :
    allComments ((groups.map (fun g => CommentGroup.mk (g.List.filter p))).filter
        (fun g => !g.List.isEmpty)) = (allComments groups).filter p := by
  induction groups with
  | nil => simp [allComments]
  | cons g gs ih =>
    simp only [allComments] at ih
    by_cases h : g.List.filter p = []
    · simp [allComments, List.filter_cons, h, ih]
    · simp [allComments, List.filter_cons, h, ih]

theorem filter_map_groups (p : Comment → Bool) (groups : List CommentGroup) :
    (groups.map (fun g => CommentGroup.mk (g.List.filter p))).filter (fun g => !g.List.isEmpty)
      = (groups.filter (fun g => g.List.any p)).map (fun g => CommentGroup.mk (g.List.filter p)) := by
  induction groups with
  | nil => simp
  | cons g gs ih =>
    by_cases h : g.List.any p = true
    · have h2 : g.List.filter p ≠ [] := by
        intro hnil
        simp only [List.any_eq_true] at h
        obtain ⟨c, hc, hp⟩ := h
        have : c ∈ g.List.filter p := List.mem_filter.mpr ⟨hc, hp⟩
        rw [hnil] at this
        exact (List.not_mem_nil c) this
      simp [List.filter_cons, h, h2, ih]
    · have h2 : g.List.filter p = [] := by
        rw [List.filter_eq_nil_iff]
        intro c hc hp
        exact h (List.any_eq_true.mpr ⟨c, hc, hp⟩)
      simp [List.filter_cons, h, h2, ih]

/-- C2: the comments of the result of `trimComments`, read in order through the groups,
are the comments of the input that start with `//go:` and stand in column 1, in the
order of the input; a comment occurs in the result exactly when it occurs in the input
and passes this test, and then as often as in the input. -/
theorem trimComments_keeps_directives (file : AstFile) (fset : FileSet) :
    allComments (trimComments file fset)
        = (allComments file.Comments).filter
            (fun c => HasPrefix c.Text "//go:" && (fset.Position c.Slash).Column == 1)
    ∧ (∀ c, c ∈ allComments (trimComments file fset) ↔
        c ∈ allComments file.Comments ∧ HasPrefix c.Text "//go:" = true ∧
          (fset.Position c.Slash).Column = 1)
    ∧ (∀ c, HasPrefix c.Text "//go:" = true → (fset.Position c.Slash).Column = 1 →
        (allComments (trimComments file fset)).count c = (allComments file.Comments).count c) := by
  have key : allComments (trimComments file fset)
      = (allComments file.Comments).filter (isDirective fset) := by
    rw [trimComments_eq, allComments_filter_groups]
  refine ⟨key, ?_, ?_⟩
  · intro c
    rw [key, List.mem_filter]
    simp [isDirective]
  · intro c h1 h2
    rw [key]
    apply List.count_filter
    simp [isDirective, h1, h2]

/-- C3: the result of `trimComments` has one group for each input group that holds a
comment starting with `//go:` in column 1, in input order; the group holds the comments
of the input group that pass this test, in their order; no group of the result is empty. -/
theorem trimComments_groups (file : AstFile) (fset : FileSet) :
    trimComments file fset
        = (file.Comments.filter (fun g => g.List.any
            (fun c => HasPrefix c.Text "//go:" && (fset.Position c.Slash).Column == 1))).map
          (fun g => CommentGroup.mk (g.List.filter
            (fun c => HasPrefix c.Text "//go:" && (fset.Position c.Slash).Column == 1)))
    ∧ ∀ g ∈ trimComments file fset, g.List ≠ [] := by
  have key := trimComments_eq file fset
  refine ⟨?_, ?_⟩
  · rw [key, filter_map_groups]
    rfl
  · intro g hg
    rw [key, List.mem_filter] at hg
    intro hnil
    simp [hnil] at hg

/-! ## The walk of declarations and files -/

theorem walkFuncDecl_some (f : File) (name : String) (body : BlockStmt) :
    walkFuncDecl f ⟨name, some body⟩ =
      .ok ⟨name,
        some (.mk ([f.newCheckpoint "start"] ++ body.List ++ [f.newCheckpoint "stop"]))⟩ := by
  simp [walkFuncDecl, File.Visit, walkExpr_eq, walkBlockStmt_eq, bind, Except.bind, pure,
    Except.pure]

theorem walkFuncDecl_none (f : File) (name : String) :
    walkFuncDecl f ⟨name, none⟩ = .error .nilDereference := rfl

theorem walkDecl_eq (f : File) (d : Decl) (h : d.isFuncWithoutBody = false) :
    walkDecl f d = .ok (d.afterWalk f) := by
  match d, h with
  | .funcDecl ⟨name, some body⟩, _ =>
    simp [walkDecl, walkFuncDecl_some, Decl.afterWalk, bind, Except.bind, pure, Except.pure]
  | .genDecl n, _ =>
    simp [walkDecl, walkGenDecl_eq, Decl.afterWalk, bind, Except.bind, pure, Except.pure]

theorem walkDecl_error (f : File) (d : Decl) (h : d.isFuncWithoutBody = true) :
    walkDecl f d = .error .nilDereference := by
  match d, h with
  | .funcDecl ⟨name, none⟩, _ => rfl

theorem walkDeclList_eq (f : File) (ds : List Decl)
    (h : ds.all (fun d => !d.isFuncWithoutBody) = true) :
    walkDeclList f ds = .ok (ds.map (Decl.afterWalk f)) := by
  induction ds with
  | nil => rfl
  | cons d ds ih =>
    simp only [List.all_cons, Bool.and_eq_true, Bool.not_eq_true'] at h
    simp [walkDeclList, walkDecl_eq f d h.1, ih h.2, bind, Except.bind, pure, Except.pure]

theorem walkDeclList_error (f : File) (ds : List Decl)
    (h : ds.all (fun d => !d.isFuncWithoutBody) = false) :
    walkDeclList f ds = .error .nilDereference := by
  induction ds with
  | nil => simp at h
  | cons d ds ih =>
    by_cases hd : d.isFuncWithoutBody = true
    · simp [walkDeclList, walkDecl_error f d hd, bind, Except.bind]
    · simp only [Bool.not_eq_true] at hd
      have h2 : ds.all (fun d => !d.isFuncWithoutBody) = false := by
        simpa [List.all_cons, hd] using h
      simp [walkDeclList, walkDecl_eq f d hd, ih h2, bind, Except.bind]

theorem walkFile_eq (f : File) (n : AstFile) (h : n.allBodies = true) :
    walkFile f n = .ok { n with Decls := n.Decls.map (Decl.afterWalk f) } := by
  simp [walkFile, File.Visit, walkExpr_eq, walkDeclList_eq f n.Decls h, bind, Except.bind, pure,
    Except.pure]

theorem walkFile_error (f : File) (n : AstFile) (h : n.allBodies = false) :
    walkFile f n = .error .nilDereference := by
  simp [walkFile, File.Visit, walkExpr_eq, walkDeclList_error f n.Decls h, bind, Except.bind, pure,
    Except.pure]

/-- The walk of a file completes exactly when every function declaration has a body. -/
theorem walkFile_ok_iff (f : File) (n : AstFile) :
    (∃ n', walkFile f n = .ok n') ↔ n.allBodies = true := by
  constructor
  · rintro ⟨n', h⟩
    by_contra hb
    simp only [Bool.not_eq_true] at hb
    rw [walkFile_error f n hb] at h
    cases h
  · intro h
    exact ⟨_, walkFile_eq f n h⟩

/-! ## The instrumentation pass -/

/-- C1: on a file whose function declarations all have a body (the files on which the
walk completes, `walkFile_ok_iff`), the walk returns a file with as many declarations,
and a function declaration whose body held the non-empty statement list `L` has, at the
same place and under the same name, the body `[start] ++ L ++ [stop]`: `len(L) + 2`
statements, the entry checkpoint first, the exit checkpoint last, and `L` itself, in
its order, between them. -/
theorem walkFile_brackets_bodies (f : File) (file : AstFile) (h : file.allBodies = true) :
    ∃ file', walkFile f file = .ok file' ∧ file'.Decls.length = file.Decls.length ∧
      ∀ (i : Nat) (name : String) (L : List Stmt), L ≠ [] →
        file.Decls[i]? = some (.funcDecl ⟨name, some (.mk L)⟩) →
        ∃ L', file'.Decls[i]? = some (.funcDecl ⟨name, some (.mk L')⟩) ∧
          L' = [f.newCheckpoint "start"] ++ L ++ [f.newCheckpoint "stop"] ∧
          L'.length = L.length + 2 ∧
          L'.head? = some (f.newCheckpoint "start") ∧
          L'.getLast? = some (f.newCheckpoint "stop") ∧
          (L'.drop 1).take L.length = L := by
  refine ⟨_, walkFile_eq f file h, by simp, ?_⟩
  intro i name L _ hi
  refine ⟨[f.newCheckpoint "start"] ++ L ++ [f.newCheckpoint "stop"], ?_, rfl, ?_, ?_, ?_, ?_⟩
  · simp [List.getElem?_map, hi, Decl.afterWalk, BlockStmt.List]
  · simp
  · simp
  · rw [List.getLast?_append]
    simp
  · simp

theorem walkFile_brackets_bodies_witness :
    fileAB.allBodies = true ∧
    ∃ file', walkFile exampleVisitor fileAB = .ok file' ∧
      file'.Decls.length = fileAB.Decls.length ∧
      ∀ (i : Nat) (name : String) (L : List Stmt), L ≠ [] →
        fileAB.Decls[i]? = some (.funcDecl ⟨name, some (.mk L)⟩) →
        ∃ L', file'.Decls[i]? = some (.funcDecl ⟨name, some (.mk L')⟩) ∧
          L' = [exampleVisitor.newCheckpoint "start"] ++ L ++ [exampleVisitor.newCheckpoint "stop"] ∧
          L'.length = L.length + 2 ∧
          L'.head? = some (exampleVisitor.newCheckpoint "start") ∧
          L'.getLast? = some (exampleVisitor.newCheckpoint "stop") ∧
          (L'.drop 1).take L.length = L :=
  ⟨rfl, walkFile_brackets_bodies exampleVisitor fileAB rfl⟩

/-- C4, as stated, fails on `func F() {}`: the visitor puts both checkpoints into the
empty body, which is not empty afterwards. -/
theorem empty_body_counterexample :
    walkFile exampleVisitor fileEmptyBody =
      .ok ⟨"main", [.funcDecl ⟨"F", some (.mk
        [exampleVisitor.newCheckpoint "start", exampleVisitor.newCheckpoint "stop"])⟩], []⟩
    ∧ ¬ (∃ f' name, exampleVisitor.Visit (.funcDecl ⟨"F", some (.mk [])⟩) =
          .ok (f', .funcDecl ⟨name, some (.mk [])⟩)) := by
  refine ⟨rfl, ?_⟩
  rintro ⟨f', name, h⟩
  simp [File.Visit, BlockStmt.List] at h

/-- C4, amended: a function declaration whose body is present and empty gets both
checkpoints: after the visitor, and after the walk, its body is `[start, stop]`. -/
theorem empty_body_gets_both_checkpoints (f : File) (name : String) :
    f.Visit (.funcDecl ⟨name, some (.mk [])⟩) =
        .ok (f, .funcDecl ⟨name, some (.mk [f.newCheckpoint "start", f.newCheckpoint "stop"])⟩)
    ∧ walkFuncDecl f ⟨name, some (.mk [])⟩ =
        .ok ⟨name, some (.mk [f.newCheckpoint "start", f.newCheckpoint "stop"])⟩ :=
  ⟨rfl, walkFuncDecl_some f name (.mk [])⟩

/-- C5: on a function declaration without a body the visitor reads `n.Body.List` through
the nil pointer and panics, and so does the walk of a file that holds such a
declaration. -/
theorem visit_without_body_panics (f : File) (name : String) :
    f.Visit (.funcDecl ⟨name, none⟩) = .error .nilDereference
    ∧ walkFile f fileNoBody = .error .nilDereference :=
  ⟨rfl, rfl⟩

/-- C6, as stated, fails on `func F() { func() { a() }() }`: after the walk the body of
the function literal is still `a()` alone, with no checkpoint before or after it. -/
theorem nested_funcLit_counterexample :
    walkFile exampleVisitor fileFuncLit =
      .ok ⟨"main", [.funcDecl ⟨"F", some (.mk
        [exampleVisitor.newCheckpoint "start",
         .exprStmt (.callExpr (.funcLit (.mk [callStmt "a"])) []),
         exampleVisitor.newCheckpoint "stop"])⟩], []⟩
    ∧ isCheckpoint "start" (callStmt "a") = false
    ∧ isCheckpoint "stop" (callStmt "a") = false :=
  ⟨rfl, rfl, rfl⟩

/-- C6, amended: a function literal is visited and left as it was, by the visitor and by
the walk; the enclosing function declaration gets its pair of checkpoints around its
statements, which come back unchanged, function literals included. -/
theorem funcLit_left_unchanged (f : File) (body : BlockStmt) (name : String) (L : List Stmt) :
    f.Visit (.expr (.funcLit body)) = .ok (f, .expr (.funcLit body))
    ∧ walkExpr f (.funcLit body) = .ok (.funcLit body)
    ∧ walkFuncDecl f ⟨name, some (.mk L)⟩ =
        .ok ⟨name, some (.mk ([f.newCheckpoint "start"] ++ L ++ [f.newCheckpoint "stop"]))⟩ :=
  ⟨rfl, walkExpr_eq f _, walkFuncDecl_some f name (.mk L)⟩

/-- C9: `newCheckpoint k` is the expression statement that calls the unresolved
identifier `k` with one argument, the string literal whose text is a double quote, `k`,
` measuring something...` and a double quote; the visitor puts `newCheckpoint "start"`
before and `newCheckpoint "stop"` after the statements of the body. -/
theorem newCheckpoint_shape (f : File) (k : String) :
    (∃ v, f.newCheckpoint k = .exprStmt (.callExpr (.ident k none) [.basicLit .STRING v])
      ∧ v.data = ['"'] ++ k.data ++ " measuring something...".data ++ ['"'])
    ∧ ∀ (name : String) (body : BlockStmt),
        f.Visit (.funcDecl ⟨name, some body⟩) =
          .ok (f, .funcDecl ⟨name,
            some (.mk (f.newCheckpoint "start" :: (body.List ++ [f.newCheckpoint "stop"])))⟩) := by
  refine ⟨⟨_, rfl, ?_⟩, fun _ _ => rfl⟩
  simp [String.data_append]

/-- C10, as stated, fails on `func F() { a(); b() }`: the walk yields four statements,
but the argument of the entry checkpoint is `"start measuring something..."` and that
of the exit checkpoint `"stop measuring something..."`; neither is the kind followed by
`F`, and the letter `F` occurs in neither. -/
theorem label_names_function_counterexample :
    walkFile exampleVisitor fileAB =
      .ok ⟨"main", [.funcDecl ⟨"F", some (.mk
        [.exprStmt (.callExpr (.ident "start" none)
           [.basicLit .STRING "\"start measuring something...\""]),
         callStmt "a", callStmt "b",
         .exprStmt (.callExpr (.ident "stop" none)
           [.basicLit .STRING "\"stop measuring something...\""])])⟩], []⟩
    ∧ "\"start measuring something...\"" ≠ "\"start F\""
    ∧ "\"start measuring something...\"" ≠ "\"enter F\""
    ∧ "\"stop measuring something...\"" ≠ "\"stop F\""
    ∧ "\"stop measuring something...\"" ≠ "\"exit F\""
    ∧ 'F' ∉ "\"start measuring something...\"".data
    ∧ 'F' ∉ "\"stop measuring something...\"".data := by
  refine ⟨rfl, ?_, ?_, ?_, ?_, ?_, ?_⟩ <;> decide

/-- C10, amended: a function declaration of any name whose body is the two statements
`a`, `b` comes out of the walk with the four statements
`start("start measuring something...")`, `a`, `b`, `stop("stop measuring something...")`:
the label is this fixed text and does not depend on the name of the function. -/
theorem two_statement_body_instrumented (f : File) (name : String) (a b : Stmt) :
    walkFuncDecl f ⟨name, some (.mk [a, b])⟩ =
      .ok ⟨name, some (.mk
        [.exprStmt (.callExpr (.ident "start" none)
           [.basicLit .STRING "\"start measuring something...\""]),
         a, b,
         .exprStmt (.callExpr (.ident "stop" none)
           [.basicLit .STRING "\"stop measuring something...\""])])⟩ :=
  walkFuncDecl_some f name (.mk [a, b])

/-! ## Counting checkpoints -/

/-- The recogniser accepts exactly the statement that `newCheckpoint` builds. -/
theorem isCheckpoint_iff (f : File) (k : String) (s : Stmt) :
    isCheckpoint k s = true ↔ s = f.newCheckpoint k := by
  unfold isCheckpoint File.newCheckpoint
  split
  · rename_i name value
    simp only [Bool.and_eq_true, beq_iff_eq, Stmt.exprStmt.injEq, Expr.callExpr.injEq,
      Expr.ident.injEq, List.cons.injEq, Expr.basicLit.injEq, and_true, true_and]
  · rename_i hne
    constructor
    · intro h
      cases h
    · intro h
      exact absurd h (hne k _)

theorem countStmtList_append (k : String) (l₁ l₂ : List Stmt) :
    countStmtList k (l₁ ++ l₂) = countStmtList k l₁ + countStmtList k l₂ := by
  induction l₁ with
  | nil => simp [countStmtList]
  | cons s ss ih => simp [countStmtList, ih, Nat.add_assoc]

theorem countDecl_afterWalk (f : File) (k : String) (d : Decl) :
    countDecl k (d.afterWalk f) =
      countDecl k d + (if d.isFuncWithBody then
        countStmt k (f.newCheckpoint "start") + countStmt k (f.newCheckpoint "stop") else 0) := by
  match d with
  | .funcDecl ⟨name, some (.mk L)⟩ =>
    simp only [Decl.afterWalk, countDecl, countBlockStmt, BlockStmt.List, Decl.isFuncWithBody,
      if_true]
    rw [countStmtList_append, countStmtList_append]
    simp only [countStmtList]
    omega
  | .funcDecl ⟨name, none⟩ => simp [Decl.afterWalk, Decl.isFuncWithBody]
  | .genDecl n => simp [Decl.afterWalk, Decl.isFuncWithBody]

theorem sum_countDecl_afterWalk (f : File) (k : String) (ds : List Decl) :
    ((ds.map (Decl.afterWalk f)).map (countDecl k)).sum =
      (ds.map (countDecl k)).sum + (ds.filter Decl.isFuncWithBody).length *
        (countStmt k (f.newCheckpoint "start") + countStmt k (f.newCheckpoint "stop")) := by
  induction ds with
  | nil => simp
  | cons d ds ih =>
    simp only [List.map_cons, List.sum_cons, ih, countDecl_afterWalk, List.filter_cons]
    by_cases hd : d.isFuncWithBody = true
    · simp only [hd, if_true, List.length_cons, Nat.add_mul, Nat.one_mul]
      omega
    · simp only [hd, Bool.false_eq_true, if_false]
      omega

theorem numBodyStmts_afterWalk (f : File) (d : Decl) :
    (d.afterWalk f).numBodyStmts = d.numBodyStmts + (if d.isFuncWithBody then 2 else 0) := by
  match d with
  | .funcDecl ⟨name, some (.mk L)⟩ =>
    simp [Decl.afterWalk, Decl.numBodyStmts, BlockStmt.List, Decl.isFuncWithBody]
  | .funcDecl ⟨name, none⟩ => simp [Decl.afterWalk, Decl.isFuncWithBody]
  | .genDecl n => simp [Decl.afterWalk, Decl.isFuncWithBody]

theorem sum_numBodyStmts_afterWalk (f : File) (ds : List Decl) :
    ((ds.map (Decl.afterWalk f)).map Decl.numBodyStmts).sum =
      (ds.map Decl.numBodyStmts).sum + 2 * (ds.filter Decl.isFuncWithBody).length := by
  induction ds with
  | nil => simp
  | cons d ds ih =>
    simp only [List.map_cons, List.sum_cons, ih, numBodyStmts_afterWalk, List.filter_cons]
    by_cases hd : d.isFuncWithBody = true
    · simp only [hd, if_true, List.length_cons]
      omega
    · simp only [hd, Bool.false_eq_true, if_false]
      omega

theorem isFuncWithBody_afterWalk (f : File) (d : Decl) :
    (d.afterWalk f).isFuncWithBody = d.isFuncWithBody := by
  match d with
  | .funcDecl ⟨name, some body⟩ => rfl
  | .funcDecl ⟨name, none⟩ => rfl
  | .genDecl n => rfl

theorem isFuncWithoutBody_afterWalk (f : File) (d : Decl) :
    (d.afterWalk f).isFuncWithoutBody = d.isFuncWithoutBody := by
  match d with
  | .funcDecl ⟨name, some body⟩ => rfl
  | .funcDecl ⟨name, none⟩ => rfl
  | .genDecl n => rfl

theorem count_start_start (f : File) : countStmt "start" (f.newCheckpoint "start") = 1 := by
  simp only [File.newCheckpoint]
  decide

theorem count_start_stop (f : File) : countStmt "start" (f.newCheckpoint "stop") = 0 := by
  simp only [File.newCheckpoint]
  decide

theorem count_stop_start (f : File) : countStmt "stop" (f.newCheckpoint "start") = 0 := by
  simp only [File.newCheckpoint]
  decide

theorem count_stop_stop (f : File) : countStmt "stop" (f.newCheckpoint "stop") = 1 := by
  simp only [File.newCheckpoint]
  decide

/-- C7, as stated, fails on `func F() {}`: the file holds no checkpoint and no function
declaration with a non-empty body (N = 0), and the walk returns a tree with one entry
and one exit checkpoint. -/
theorem checkpoint_count_counterexample :
    countFile "start" fileEmptyBody = 0 ∧ countFile "stop" fileEmptyBody = 0
    ∧ (fileEmptyBody.Decls.filter Decl.isFuncWithStmts).length = 0
    ∧ ∃ file', walkFile exampleVisitor fileEmptyBody = .ok file'
        ∧ countFile "start" file' = 1 ∧ countFile "stop" file' = 1 :=
  ⟨by decide, by decide, by decide, _, rfl, by decide, by decide⟩

/-- C7, amended: on a file that holds no checkpoint statement and whose function
declarations all have a body, M of them in all (with an empty body or not), the walk
completes and the tree it returns holds exactly M entry checkpoints and exactly M exit
checkpoints; the bodies of the function declarations have 2M statements more. -/
theorem checkpoint_count (f : File) (file : AstFile) (h : file.allBodies = true)
    (hstart : countFile "start" file = 0) (hstop : countFile "stop" file = 0) :
    ∃ file', walkFile f file = .ok file'
      ∧ countFile "start" file' = (file.Decls.filter Decl.isFuncWithBody).length
      ∧ countFile "stop" file' = (file.Decls.filter Decl.isFuncWithBody).length
      ∧ (file'.Decls.map Decl.numBodyStmts).sum =
          (file.Decls.map Decl.numBodyStmts).sum
            + 2 * (file.Decls.filter Decl.isFuncWithBody).length := by
  refine ⟨_, walkFile_eq f file h, ?_, ?_, ?_⟩
  · simp only [countFile] at hstart ⊢
    rw [sum_countDecl_afterWalk, hstart, count_start_start, count_start_stop]
    omega
  · simp only [countFile] at hstop ⊢
    rw [sum_countDecl_afterWalk, hstop, count_stop_start, count_stop_stop]
    omega
  · exact sum_numBodyStmts_afterWalk f file.Decls

theorem checkpoint_count_witness :
    fileAB.allBodies = true ∧ countFile "start" fileAB = 0 ∧ countFile "stop" fileAB = 0
    ∧ ∃ file', walkFile exampleVisitor fileAB = .ok file'
      ∧ countFile "start" file' = (fileAB.Decls.filter Decl.isFuncWithBody).length
      ∧ countFile "stop" file' = (fileAB.Decls.filter Decl.isFuncWithBody).length
      ∧ (file'.Decls.map Decl.numBodyStmts).sum =
          (fileAB.Decls.map Decl.numBodyStmts).sum
            + 2 * (fileAB.Decls.filter Decl.isFuncWithBody).length :=
  ⟨rfl, by decide, by decide, checkpoint_count exampleVisitor fileAB rfl (by decide) (by decide)⟩

/-- C8, as stated, fails on `fileABOnce`, the file that one walk makes of
`func F() { a(); b() }`: it has a function declaration with a non-empty body, the walk
returns a tree with 2 entry and 2 exit checkpoints, and the walk of that tree returns
one with 3 of each, not 4: the counts do not double. -/
theorem second_walk_doubles_counterexample :
    walkFile exampleVisitor fileAB = .ok fileABOnce
    ∧ fileABOnce.allBodies = true
    ∧ (∃ d ∈ fileABOnce.Decls, d.isFuncWithStmts = true)
    ∧ ∃ file₁ file₂, walkFile exampleVisitor fileABOnce = .ok file₁
        ∧ walkFile exampleVisitor file₁ = .ok file₂
        ∧ countFile "start" file₁ = 2 ∧ countFile "start" file₂ = 3
        ∧ countFile "stop" file₁ = 2 ∧ countFile "stop" file₂ = 3
        ∧ countFile "start" file₂ ≠ 2 * countFile "start" file₁
        ∧ countFile "stop" file₂ ≠ 2 * countFile "stop" file₁ :=
  ⟨rfl, rfl, ⟨_, List.mem_singleton.mpr rfl, rfl⟩, _, _, rfl, rfl,
    by decide, by decide, by decide, by decide, by decide, by decide⟩

/-- C8, amended: on a file whose function declarations all have a body, one of them a
non-empty one, the walk completes, the walk of its result completes too and returns a
different tree; the first walk adds M entry and M exit checkpoints and the two walks
together 2M of each (M the number of function declarations), so that the counts of the
second tree are twice those of the first when the file held no checkpoint; a body that
was `L` is `[start, start] ++ L ++ [stop, stop]` after the two walks. -/
theorem second_walk_doubles (f : File) (file : AstFile) (h : file.allBodies = true)
    (hne : ∃ d ∈ file.Decls, d.isFuncWithStmts = true) :
    ∃ file₁ file₂, walkFile f file = .ok file₁ ∧ walkFile f file₁ = .ok file₂
      ∧ file₂ ≠ file₁
      ∧ (∀ k, k = "start" ∨ k = "stop" →
          countFile k file₁ = countFile k file + (file.Decls.filter Decl.isFuncWithBody).length
          ∧ countFile k file₂ =
              countFile k file + 2 * (file.Decls.filter Decl.isFuncWithBody).length
          ∧ (countFile k file = 0 → countFile k file₂ = 2 * countFile k file₁))
      ∧ ∀ (i : Nat) (name : String) (L : List Stmt),
          file.Decls[i]? = some (.funcDecl ⟨name, some (.mk L)⟩) →
          file₂.Decls[i]? = some (.funcDecl ⟨name, some (.mk
            ([f.newCheckpoint "start", f.newCheckpoint "start"] ++ L ++
              [f.newCheckpoint "stop", f.newCheckpoint "stop"]))⟩) := by
  have h₁ : ({ file with Decls := file.Decls.map (Decl.afterWalk f) } : AstFile).allBodies
      = true := by
    simp only [AstFile.allBodies, List.all_map] at h ⊢
    rw [← h]
    congr 1
    funext d
    simp [isFuncWithoutBody_afterWalk]
  have hbody : ∀ (i : Nat) (name : String) (L : List Stmt),
      file.Decls[i]? = some (.funcDecl ⟨name, some (.mk L)⟩) →
      ((file.Decls.map (Decl.afterWalk f)).map (Decl.afterWalk f))[i]? =
        some (.funcDecl ⟨name, some (.mk
          ([f.newCheckpoint "start", f.newCheckpoint "start"] ++ L ++
            [f.newCheckpoint "stop", f.newCheckpoint "stop"]))⟩) := by
    intro i name L hi
    simp [List.getElem?_map, hi, Decl.afterWalk, BlockStmt.List]
  have hM : ((file.Decls.map (Decl.afterWalk f)).filter Decl.isFuncWithBody).length
      = (file.Decls.filter Decl.isFuncWithBody).length := by
    rw [List.filter_map, List.length_map]
    congr 2
    funext d
    simp [isFuncWithBody_afterWalk]
  refine ⟨_, _, walkFile_eq f file h, walkFile_eq f _ h₁, ?_, ?_, hbody⟩
  · obtain ⟨d, hd, hs⟩ := hne
    obtain ⟨i, hi⟩ := List.getElem?_of_mem hd
    intro heq
    have hdecls : (file.Decls.map (Decl.afterWalk f)).map (Decl.afterWalk f)
        = file.Decls.map (Decl.afterWalk f) := congrArg AstFile.Decls heq
    match d, hs with
    | .funcDecl ⟨name, some (.mk (s :: L))⟩, _ =>
      have h2 := hbody i name (s :: L) hi
      rw [hdecls] at h2
      simp [List.getElem?_map, hi, Decl.afterWalk, BlockStmt.List] at h2
      have hlen := congrArg List.length h2.2
      simp at hlen
  · intro k hk
    have e₁ : countFile k { file with Decls := file.Decls.map (Decl.afterWalk f) }
        = countFile k file + (file.Decls.filter Decl.isFuncWithBody).length := by
      simp only [countFile]
      rw [sum_countDecl_afterWalk]
      rcases hk with rfl | rfl
      · rw [count_start_start, count_start_stop]
        omega
      · rw [count_stop_start, count_stop_stop]
        omega
    have e₂ : countFile k { file with Decls :=
          (file.Decls.map (Decl.afterWalk f)).map (Decl.afterWalk f) }
        = countFile k file + 2 * (file.Decls.filter Decl.isFuncWithBody).length := by
      simp only [countFile] at e₁ ⊢
      rw [sum_countDecl_afterWalk, e₁, hM]
      rcases hk with rfl | rfl
      · rw [count_start_start, count_start_stop]
        omega
      · rw [count_stop_start, count_stop_stop]
        omega
    refine ⟨e₁, e₂, ?_⟩
    intro h0
    rw [e₁, e₂, h0]
    omega

theorem second_walk_doubles_witness :
    fileAB.allBodies = true ∧ (∃ d ∈ fileAB.Decls, d.isFuncWithStmts = true)
    ∧ ∃ file₁ file₂, walkFile exampleVisitor fileAB = .ok file₁
      ∧ walkFile exampleVisitor file₁ = .ok file₂
      ∧ file₂ ≠ file₁
      ∧ (∀ k, k = "start" ∨ k = "stop" →
          countFile k file₁
            = countFile k fileAB + (fileAB.Decls.filter Decl.isFuncWithBody).length
          ∧ countFile k file₂ =
              countFile k fileAB + 2 * (fileAB.Decls.filter Decl.isFuncWithBody).length
          ∧ (countFile k fileAB = 0 → countFile k file₂ = 2 * countFile k file₁))
      ∧ ∀ (i : Nat) (name : String) (L : List Stmt),
          fileAB.Decls[i]? = some (.funcDecl ⟨name, some (.mk L)⟩) →
          file₂.Decls[i]? = some (.funcDecl ⟨name, some (.mk
            ([exampleVisitor.newCheckpoint "start", exampleVisitor.newCheckpoint "start"] ++ L ++
              [exampleVisitor.newCheckpoint "stop", exampleVisitor.newCheckpoint "stop"]))⟩) :=
  ⟨rfl, ⟨_, List.mem_singleton.mpr rfl, rfl⟩,
    second_walk_doubles exampleVisitor fileAB rfl ⟨_, List.mem_singleton.mpr rfl, rfl⟩⟩

/-! ## The visitor on other nodes, and a trailing return -/

/-- C11: on a node that is not a function declaration (another declaration, a
specification, a statement, an expression, a file, or the nil node that ends a subtree)
`File.Visit` does not fail and hands back the node and the visitor state as they were. -/
theorem Visit_other_node (f : File) (node : Node) (h : ∀ n, node ≠ .funcDecl n) :
    f.Visit node = .ok (f, node) := by
  cases node with
  | funcDecl n => exact absurd rfl (h n)
  | _ => rfl

theorem Visit_other_node_witness :
    (∀ n, Node.stmt (callStmt "a") ≠ .funcDecl n)
    ∧ exampleVisitor.Visit (.stmt (callStmt "a")) = .ok (exampleVisitor, .stmt (callStmt "a")) :=
  ⟨fun _ h => Node.noConfusion h,
    Visit_other_node exampleVisitor (.stmt (callStmt "a")) (fun _ h => Node.noConfusion h)⟩

/-- C14: a function declaration whose last statement is a return statement comes out of
the visitor, and of the walk, with the exit checkpoint as its last statement and the
return statement right before it; the statements before the return follow the entry
checkpoint unchanged. -/
theorem return_followed_by_stop (f : File) (name : String) (L : List Stmt)
    (results : List Expr) :
    f.Visit (.funcDecl ⟨name, some (.mk (L ++ [.returnStmt results]))⟩) =
        .ok (f, .funcDecl ⟨name, some (.mk
          ([f.newCheckpoint "start"] ++ L ++ [.returnStmt results, f.newCheckpoint "stop"]))⟩)
    ∧ walkFuncDecl f ⟨name, some (.mk (L ++ [.returnStmt results]))⟩ =
        .ok ⟨name, some (.mk
          ([f.newCheckpoint "start"] ++ L ++ [.returnStmt results, f.newCheckpoint "stop"]))⟩
    ∧ ([f.newCheckpoint "start"] ++ L ++
          [.returnStmt results, f.newCheckpoint "stop"]).getLast?
        = some (f.newCheckpoint "stop")
    ∧ ([f.newCheckpoint "start"] ++ L ++
          [.returnStmt results, f.newCheckpoint "stop"]).dropLast.getLast?
        = some (.returnStmt results) := by
  have e : [f.newCheckpoint "start"] ++ (L ++ [Stmt.returnStmt results]) ++
        [f.newCheckpoint "stop"]
      = [f.newCheckpoint "start"] ++ L ++ [.returnStmt results, f.newCheckpoint "stop"] := by
    simp
  refine ⟨?_, ?_, ?_, ?_⟩
  · rw [← e]
    rfl
  · rw [← e]
    exact walkFuncDecl_some f name (.mk (L ++ [.returnStmt results]))
  · rw [List.getLast?_append]
    simp
  · have e2 : [f.newCheckpoint "start"] ++ L ++ [.returnStmt results, f.newCheckpoint "stop"]
        = ([f.newCheckpoint "start"] ++ L ++ [.returnStmt results]) ++
            [f.newCheckpoint "stop"] := by
      simp
    rw [e2, List.dropLast_concat, List.getLast?_append]
    simp

/-! ## The run of the program -/

/-- C12: with a well-formed `run.go_` and a printer that returns an error (standard
output is a full device), `main` ends with exit status 0 and writes nothing to standard
error: `File.print` drops the error of `printer.Fprint`. -/
theorem print_error_ignored :
    (∀ fset tree, (envStdoutFull.Fprint fset tree).2
        = some "write /dev/stdout: no space left on device")
    ∧ main envStdoutFull = ⟨0, [""], []⟩ :=
  ⟨fun _ _ => rfl, rfl⟩

/-- C13: when `run.go_` can be read and the parser returns an error, `main` ends in
`log.Fatalf`: exit status 1, the message `cover: run.go_: ` followed by the error on
standard error, and nothing written to standard output, whatever the printer would
do. -/
theorem parse_error_is_fatal (env : Env) (content err : String)
    (hread : env.ReadFile "run.go_" = .ok content)
    (hparse : env.ParseFile "run.go_" content = .error err) :
    main env = ⟨1, [], ["cover: run.go_: " ++ err]⟩ := by
  simp [main, hread, hparse, logFatalf]

theorem parse_error_is_fatal_witness :
    envUnbalanced.ReadFile "run.go_" = .ok "package main; func F() \x7b"
    ∧ envUnbalanced.ParseFile "run.go_" "package main; func F() \x7b"
        = .error "run.go_:1:25: expected \x7d, found EOF"
    ∧ main envUnbalanced
        = ⟨1, [], ["cover: run.go_: " ++ "run.go_:1:25: expected \x7d, found EOF"]⟩ :=
  ⟨rfl, rfl, parse_error_is_fatal envUnbalanced _ _ rfl rfl⟩

/-! ## trimComments twice -/

theorem trim_groups_idem (p : Comment → Bool) (groups : List CommentGroup) :
    ((((groups.map (fun g => CommentGroup.mk (g.List.filter p))).filter
          (fun g => !g.List.isEmpty)).map (fun g => CommentGroup.mk (g.List.filter p))).filter
        (fun g => !g.List.isEmpty))
      = (groups.map (fun g => CommentGroup.mk (g.List.filter p))).filter
          (fun g => !g.List.isEmpty) := by
  induction groups with
  | nil => simp
  | cons g gs ih =>
    by_cases h : g.List.filter p = []
    · simpa [List.filter_cons, h] using ih
    · have hne : (!(g.List.filter p).isEmpty) = true := by
        simp [List.isEmpty_iff, h]
      simp only [List.map_cons, List.filter_cons, hne, if_true, List.filter_filter,
        Bool.and_self, ih]

/-- C15: `trimComments` applied to its own result, under the same file set, returns that
result: the same groups with the same comments in the same order. -/
theorem trimComments_idempotent (file : AstFile) (fset : FileSet) :
    trimComments { file with Comments := trimComments file fset } fset
      = trimComments file fset := by
  rw [trimComments_eq { file with Comments := trimComments file fset } fset,
    trimComments_eq file fset]
  exact trim_groups_idem (isDirective fset) file.Comments

end Instrumetrics
